import Mathlib

/-!
Verification of the SVG icon build pipeline (`scripts/optimize.ts`).

The script walks a `raw/` source tree, optimizes every `.svg` file through
the external SVGO engine, writes the results flat into `optimized/`, and
finally writes an `optimized/manifest.json` index.  This development embeds
the script shallowly:

* JavaScript strings are Lean `String`s (ASCII fragment; `toLowerCase` is
  `Char.toLower` per character).
* Node's `path` helpers are modelled over `String.data`.  `path.resolve(d, n)`
  and `path.join(d, n)` for a plain entry name `n` are both `d ++ "/" ++ n`.
  `path.basename(p, ext)` strips `ext` only when it is a proper, case
  sensitive suffix of the final path component (a file whose entire name is
  `.svg` hits a Node corner case that no source tree here exercises; such a
  name is outside the model).
* The filesystem is a finite tree of entries; `fs.readFile` is modelled by
  carrying each file's content alongside its absolute path during the walk.
* SVGO's `optimize` is an opaque engine `content → config → Except`, a
  thrown exception being the `.error` case.
* The observable behaviour of a run is a trace of events (directory
  creation, file writes, console lines) plus the process exit code; the
  success path exits 0, the single `catch` block logs and exits 1.
-/

/-- ASCII model of `s.toLowerCase()` on a character list. -/
def lowerChars (l : List Char) : List Char := l.map Char.toLower

/-- Model of `file.toLowerCase().endsWith('.svg')`, the discovery filter. -/
def svgExt (p : String) : Bool := decide (".svg".data <:+ lowerChars p.data)

/-- Characters of the final path component: everything after the last `/`. -/
def afterLastSlash (l : List Char) : List Char :=
  (l.reverse.takeWhile (fun c => c ≠ '/')).reverse

/-- Model of Node `path.basename(p)`. -/
def pathBasename (p : String) : String := ⟨afterLastSlash p.data⟩

/-- Model of Node `path.basename(p, ext)`: the final component, with `ext`
removed when it is a proper, case sensitive suffix of that component. -/
def pathBasenameStrip (p ext : String) : String :=
  let b := afterLastSlash p.data
  if b = ext.data then ⟨b⟩
  else if ext.data <:+ b then ⟨b.take (b.length - ext.data.length)⟩
  else ⟨b⟩

/-- Model of `path.resolve(dir, name)` for a plain directory entry name. -/
def resolvePath (dir name : String) : String := dir ++ "/" ++ name

/-- Model of `path.join(dir, name)` for a plain file name. -/
def joinPath (dir name : String) : String := dir ++ "/" ++ name

/-- Models `RAW_DIR = path.resolve(process.cwd(), 'raw')`. -/
def rawDir (cwd : String) : String := resolvePath cwd "raw"

/-- Models `OPTIMIZED_DIR = path.resolve(process.cwd(), 'optimized')`. -/
def optimizedDir (cwd : String) : String := resolvePath cwd "optimized"

/-- Models `path.join(OPTIMIZED_DIR, 'manifest.json')`. -/
def manifestPath (cwd : String) : String := joinPath (optimizedDir cwd) "manifest.json"

/-- A filesystem entry as seen by `fs.readdir(dir, { withFileTypes: true })`:
a file with its text content, or a subdirectory with its entries in listing
order. -/
inductive FsEntry where
  | file (name : String) (content : String)
  | dir (name : String) (entries : List FsEntry)

mutual

/-- Model of the recursive `getSvgFiles(dir)`: list the entries, resolve each
name, recurse into subdirectories, flatten, and keep the paths whose
lowercased text ends in `.svg`.  Each file path carries its content, standing
for the later `fs.readFile` of that exact path. -/
def getSvgFiles (dirPath : String) (entries : List FsEntry) : List (String × String) :=
  (walkEntries dirPath entries).flatten.filter (fun f => svgExt f.1)
termination_by (sizeOf entries, 1)

/-- The `entries.map(...)` of `getSvgFiles`, one result list per entry. -/
def walkEntries (dirPath : String) : List FsEntry → List (List (String × String))
  | [] => []
  | e :: rest => walkEntry dirPath e :: walkEntries dirPath rest
termination_by l => (sizeOf l, 0)

/-- One directory entry: `entry.isDirectory() ? getSvgFiles(res) : res`. -/
def walkEntry (dirPath : String) : FsEntry → List (String × String)
  | .file name content => [(resolvePath dirPath name, content)]
  | .dir name sub => getSvgFiles (resolvePath dirPath name) sub
termination_by e => (sizeOf e, 0)

end

/-- Follows the spec's words (§4.1): the depth-first traversal of all files
under the root, in directory listing order, before any extension filtering.
Used to compare the implementation's walk against the spec's description. -/
def specAllFiles (dirPath : String) : List FsEntry → List (String × String)
  | [] => []
  | .file name content :: rest =>
      (resolvePath dirPath name, content) :: specAllFiles dirPath rest
  | .dir name sub :: rest =>
      specAllFiles (resolvePath dirPath name) sub ++ specAllFiles dirPath rest

/-- One `name: value` attribute object, as in the SVGO plugin parameters. -/
structure SvgAttr where
  key : String
  value : String
deriving DecidableEq

/-- One entry of the `plugins` array of the SVGO config: either a bare name
or a name with parameters. -/
inductive SvgoPlugin where
  | presetDefault (overrides : List SvgAttr)
  | prefixIds (prefixValue : String)
  | removeXMLNS
  | sortAttrs
  | addAttributesToSVGElement (attributes : List SvgAttr)
deriving DecidableEq

/-- The plugin's `name` string as it appears in the config. -/
def pluginName : SvgoPlugin → String
  | .presetDefault _ => "preset-default"
  | .prefixIds _ => "prefixIds"
  | .removeXMLNS => "removeXMLNS"
  | .sortAttrs => "sortAttrs"
  | .addAttributesToSVGElement _ => "addAttributesToSVGElement"

/-- The SVGO `Config` object built by `optimizeSvg`. -/
structure SvgoConfig where
  path : String
  multipass : Bool
  plugins : List SvgoPlugin
deriving DecidableEq

/-- The config literal of `optimizeSvg(svgContent, filename)`: the `path`
echo, `multipass: true`, and the five-step plugin list, with the `prefixIds`
prefix built as `path.basename(filename, '.svg') + '-'`. -/
def optimizeSvgConfig (filename : String) : SvgoConfig :=
  { path := filename
    multipass := true
    plugins :=
      [ .presetDefault []
      , .prefixIds (pathBasenameStrip filename ".svg" ++ "-")
      , .removeXMLNS
      , .sortAttrs
      , .addAttributesToSVGElement
          [ ⟨"aria-hidden", "true"⟩, ⟨"width", "24"⟩
          , ⟨"height", "24"⟩, ⟨"fill", "currentColor"⟩ ] ] }

/-- The external SVGO `optimize`: deterministic, may throw (`.error`). -/
def SvgoEngine : Type := String → SvgoConfig → Except String String

/-- Models `optimizeSvg(svgContent, filename)`: run the engine on the content with
the per-file config and return `result.data`. -/
def optimizeSvg (engine : SvgoEngine) (svgContent filename : String) :
    Except String String :=
  engine svgContent (optimizeSvgConfig filename)

/-- JSON escaping of one character, as `JSON.stringify` does for the
characters that occur in file names handled here. -/
def jsonEscapeChar (c : Char) : List Char :=
  if c = '"' then ['\\', '"']
  else if c = '\\' then ['\\', '\\']
  else if c = '\n' then ['\\', 'n']
  else if c = '\t' then ['\\', 't']
  else if c = '\r' then ['\\', 'r']
  else [c]

/-- A JSON string literal. -/
def jsonStr (s : String) : String :=
  "\"" ++ ⟨(s.data.map jsonEscapeChar).flatten⟩ ++ "\""

/-- Models `JSON.stringify({ icons: names }, null, 2)`: the two-space indented
serialization of the manifest object. -/
def manifestJson (names : List String) : String :=
  if names.isEmpty then "\x7b\n  \"icons\": []\n\x7d"
  else
    "\x7b\n  \"icons\": [\n    "
      ++ String.intercalate ",\n    " (names.map jsonStr)
      ++ "\n  ]\n\x7d"

/-- The stems recorded in the manifest:
`allSvgFiles.map(file => path.basename(file, '.svg'))`. -/
def iconStems (files : List (String × String)) : List String :=
  files.map (fun f => pathBasenameStrip f.1 ".svg")

/-- One observable step of a run: a destination mutation or a console line.
`mkdirRecursive` is `fs.mkdir(dir, { recursive: true })`; `fileWrite` is
`fs.writeFile(path, content, 'utf8')`; the `log*` events are the console
lines in source order; `logError` is the `console.error` of the catch block. -/
inductive RunEvent where
  | mkdirRecursive (dir : String)
  | logFound (count : Nat)
  | fileWrite (path : String) (content : String)
  | logOptimized (name : String)
  | logComplete (count : Nat)
  | logManifestCreated (path : String)
  | logError
deriving DecidableEq

/-- Models `ensureDir(dir)`: probe with `fs.access`; on any probe failure
(whatever the error), fall into the catch and attempt the recursive mkdir. -/
def ensureDir (dir : String) (probe : Except String Unit) : List RunEvent :=
  match probe with
  | .ok _ => []
  | .error _ => [RunEvent.mkdirRecursive dir]

/-- The environment of one invocation: the working directory, the outcome of
the `fs.access` probe of the destination directory, the source tree under
`raw/` (`none` when the directory is missing and `fs.readdir` throws), and
the optimization engine. -/
structure RunInput where
  cwd : String
  destProbe : Except String Unit
  rawTree : Option (List FsEntry)
  engine : SvgoEngine

/-- The body of one loop iteration of `processFiles`: read the file, optimize
it with the config for its base name, and write the result under
`OPTIMIZED_DIR`; an engine throw aborts with the error. -/
def processFile (cwd : String) (engine : SvgoEngine) (f : String × String) :
    Except String (List RunEvent) :=
  let file := pathBasename f.1
  match optimizeSvg engine f.2 file with
  | .error e => .error e
  | .ok optimizedSvg =>
      .ok [ RunEvent.fileWrite (joinPath (optimizedDir cwd) file) optimizedSvg
          , RunEvent.logOptimized file ]

/-- The `for (const filePath of allSvgFiles)` loop: process the files in
order, accumulating their events, stopping at the first engine error. -/
def processAll (cwd : String) (engine : SvgoEngine) :
    List (String × String) → List RunEvent × Option String
  | [] => ([], none)
  | f :: rest =>
    match processFile cwd engine f with
    | .error e => ([], some e)
    | .ok evs =>
        let r := processAll cwd engine rest
        (evs ++ r.1, r.2)

/-- The events a successfully processed file contributes (its write and its
confirmation line); empty for a file the engine rejects. -/
def perFileEvents (cwd : String) (engine : SvgoEngine) (f : String × String) :
    List RunEvent :=
  match processFile cwd engine f with
  | .error _ => []
  | .ok evs => evs

/-- The outcome of one invocation: the event trace and the process exit code. -/
structure RunResult where
  trace : List RunEvent
  exitCode : Nat
deriving DecidableEq

/-- Models `processFiles()`: ensure the destination directory, discover, report the
count, process every file in order, report completion, then build and write
the manifest and report its creation; any error is caught once, logged, and
the process exits 1. -/
def runPipeline (inp : RunInput) : RunResult :=
  let destEvs := ensureDir (optimizedDir inp.cwd) inp.destProbe
  match inp.rawTree with
  | none => ⟨destEvs ++ [RunEvent.logError], 1⟩
  | some entries =>
    let allSvgFiles := getSvgFiles (rawDir inp.cwd) entries
    let found := destEvs ++ [RunEvent.logFound allSvgFiles.length]
    let p := processAll inp.cwd inp.engine allSvgFiles
    match p.2 with
    | some _ => ⟨found ++ p.1 ++ [RunEvent.logError], 1⟩
    | none =>
        ⟨found ++ p.1
          ++ [ RunEvent.logComplete allSvgFiles.length
             , RunEvent.fileWrite (manifestPath inp.cwd)
                 (manifestJson (iconStems allSvgFiles))
             , RunEvent.logManifestCreated (manifestPath inp.cwd) ], 0⟩

/-- Recognizer for `fileWrite` events. -/
def isFileWrite : RunEvent → Bool
  | .fileWrite _ _ => true
  | _ => false

/-- Recognizer for the completion summary line. -/
def isLogComplete : RunEvent → Bool
  | .logComplete _ => true
  | _ => false

/-- All file writes of a trace, in order. -/
def writeEvents (tr : List RunEvent) : List RunEvent := tr.filter isFileWrite

/-- All writes of a trace that target the manifest path. -/
def manifestWrites (cwd : String) (tr : List RunEvent) : List RunEvent :=
  tr.filter (fun e =>
    match e with
    | .fileWrite p _ => decide (p = manifestPath cwd)
    | _ => false)

/-- All destination mutations of a trace: directory creations and writes. -/
def destMutations (tr : List RunEvent) : List RunEvent :=
  tr.filter (fun e =>
    match e with
    | .mkdirRecursive _ => true
    | .fileWrite _ _ => true
    | _ => false)

/-- The base names of the non-manifest files a trace writes under the
destination directory, in write order. -/
def iconWriteNames (cwd : String) (tr : List RunEvent) : List String :=
  tr.filterMap (fun e =>
    match e with
    | .fileWrite p _ =>
        if p = manifestPath cwd then none else some (pathBasename p)
    | _ => none)

/-- Strip the `.svg` extension from each name, as the manifest builder does. -/
def stripSvgAll (names : List String) : List String :=
  names.map (fun b => pathBasenameStrip b ".svg")

/-- True when the engine result is a thrown error. -/
def isErrorResult (r : Except String String) : Bool :=
  match r with
  | .error _ => true
  | .ok _ => false

/-- Follows the spec's glossary: the stem of a filename is the filename with
its extension (the part from the last dot on) removed; a name without a dot
is its own stem.  Used to compare the spec's wording against the code. -/
def specStem (s : String) : String :=
  if '.' ∈ s.data then ⟨((s.data.reverse.dropWhile (fun c => c ≠ '.')).drop 1).reverse⟩
  else s

/-- An engine that succeeds on every input, echoing the content. -/
def okEngine : SvgoEngine := fun s _ => .ok s

/-- An engine that throws on every input. -/
def failingEngine : SvgoEngine := fun _ _ => .error "Invalid SVG"

/-- Whether the engine would throw on a given discovered file. -/
def engineFailsOn (engine : SvgoEngine) (f : String × String) : Bool :=
  isErrorResult (optimizeSvg engine f.2 (pathBasename f.1))

/-- A one-file source tree whose only file the engine rejects. -/
def c3Input : RunInput := ⟨"/w", .ok (), some [.file "a.svg" "body"], failingEngine⟩

/-- A one-file source tree whose file has an uppercase `.SVG` extension. -/
def c4Input : RunInput := ⟨"/w", .ok (), some [.file "y.SVG" "body"], okEngine⟩

/-- An empty source tree. -/
def c4EmptyInput : RunInput := ⟨"/w", .ok (), some [], okEngine⟩

/-- A successful one-file run used to exhibit the manifest invariant. -/
def c5Input : RunInput := ⟨"/w", .ok (), some [.file "ic.svg" "body"], okEngine⟩

/-- A successful one-file run used to exhibit the event ordering. -/
def c6Input : RunInput := ⟨"/w", .ok (), some [.file "a.svg" "hi"], okEngine⟩

/-- A run whose source root is missing. -/
def c8Input : RunInput := ⟨"/w", .ok (), none, okEngine⟩

/-- A run whose destination probe fails with a permission error and whose
source root is missing. -/
def c10Input : RunInput := ⟨"/w", .error "EACCES", none, okEngine⟩

/-! ### Helper lemmas about paths and the `.svg` predicate -/

theorem str_data_inj {s t : String} (h : s.data = t.data) : s = t := by
  cases s
  cases t
  exact congrArg String.mk h

theorem afterLastSlash_no_slash {l : List Char} (h : '/' ∉ l) :
    afterLastSlash l = l := by
  unfold afterLastSlash
  have hall : ∀ c ∈ l.reverse, (fun c => decide (c ≠ '/')) c = true := by
    intro c hc
    simp only [List.mem_reverse] at hc
    simp only [decide_eq_true_iff]
    intro he
    exact h (he ▸ hc)
  have h2 := @List.takeWhile_append_of_pos Char (fun c => decide (c ≠ '/')) l.reverse [] hall
  simp only [List.append_nil, List.takeWhile_nil] at h2
  rw [h2, List.reverse_reverse]

theorem afterLastSlash_append {l m : List Char} (h : '/' ∉ m) :
    afterLastSlash (l ++ '/' :: m) = m := by
  unfold afterLastSlash
  have hall : ∀ c ∈ m.reverse, (fun c => decide (c ≠ '/')) c = true := by
    intro c hc
    simp only [List.mem_reverse] at hc
    simp only [decide_eq_true_iff]
    intro he
    exact h (he ▸ hc)
  rw [List.reverse_append, List.reverse_cons, List.append_assoc,
    List.takeWhile_append_of_pos hall]
  simp

theorem no_slash_afterLastSlash (l : List Char) : '/' ∉ afterLastSlash l := by
  intro hmem
  unfold afterLastSlash at hmem
  rw [List.mem_reverse] at hmem
  have := List.mem_takeWhile_imp hmem
  simp at this

theorem exists_afterLastSlash_decomp (l : List Char) :
    ∃ pre, l = pre ++ afterLastSlash l ∧ (pre = [] ∨ ∃ q, pre = q ++ ['/']) := by
  refine ⟨(l.reverse.dropWhile (fun c => c ≠ '/')).reverse, ?_, ?_⟩
  · conv_lhs => rw [← List.reverse_reverse l,
      ← List.takeWhile_append_dropWhile (fun c => decide (c ≠ '/')) l.reverse]
    rw [List.reverse_append]
    rfl
  · cases hd : l.reverse.dropWhile (fun c => c ≠ '/') with
    | nil => left; simp [hd]
    | cons a rest =>
        right
        refine ⟨rest.reverse, ?_⟩
        have ha := List.head?_dropWhile_not (fun c => decide (c ≠ '/')) l.reverse
        rw [hd] at ha
        simp only [List.head?_cons] at ha
        have ha2 : a = '/' := by simpa using ha
        rw [ha2, List.reverse_cons]

theorem pathBasename_resolve {name : String} (h : '/' ∉ name.data) (dir : String) :
    pathBasename (resolvePath dir name) = name := by
  unfold pathBasename resolvePath
  apply str_data_inj
  show afterLastSlash (dir ++ "/" ++ name).data = name.data
  have hd : (dir ++ "/" ++ name).data = dir.data ++ '/' :: name.data := by
    simp [String.data_append]
  rw [hd, afterLastSlash_append h]

theorem lowerChars_append (l m : List Char) :
    lowerChars (l ++ m) = lowerChars l ++ lowerChars m :=
  List.map_append Char.toLower l m

theorem svgExt_iff {p : String} : svgExt p = true ↔ ".svg".data <:+ lowerChars p.data := by
  simp [svgExt]

theorem svgExt_pathBasename {p : String} (h : svgExt p = true) :
    svgExt (pathBasename p) = true := by
  rw [svgExt_iff] at h ⊢
  show ".svg".data <:+ lowerChars (afterLastSlash p.data)
  obtain ⟨pre, hp, hpre⟩ := exists_afterLastSlash_decomp p.data
  rcases hpre with rfl | ⟨q, rfl⟩
  · rw [hp] at h
    simpa using h
  · rw [hp, List.append_assoc, List.singleton_append] at h
    by_cases hlen : 4 ≤ (afterLastSlash p.data).length
    · have hsuf : lowerChars (afterLastSlash p.data) <:+
          lowerChars (q ++ '/' :: afterLastSlash p.data) := by
        rw [show (q ++ '/' :: afterLastSlash p.data)
              = (q ++ ['/']) ++ afterLastSlash p.data by simp,
          lowerChars_append]
        exact List.suffix_append _ _
      refine List.suffix_of_suffix_length_le h hsuf ?_
      have hl4 : (".svg".data).length = 4 := by decide
      have hlm : (lowerChars (afterLastSlash p.data)).length
          = (afterLastSlash p.data).length := List.length_map _ _
      omega
    · exfalso
      have hsuf : ('/' :: lowerChars (afterLastSlash p.data)) <:+
          lowerChars (q ++ '/' :: afterLastSlash p.data) := by
        rw [lowerChars_append]
        have hcons : lowerChars ('/' :: afterLastSlash p.data)
            = '/' :: lowerChars (afterLastSlash p.data) := by
          simp only [lowerChars, List.map_cons]
          rw [show Char.toLower '/' = '/' by decide]
        rw [hcons]
        exact List.suffix_append _ _
      have hle : ('/' :: lowerChars (afterLastSlash p.data)).length ≤ (".svg".data).length := by
        have : (".svg".data).length = 4 := by decide
        simp only [List.length_cons, this, lowerChars, List.length_map]
        omega
      have hss := List.suffix_of_suffix_length_le hsuf h hle
      have : '/' ∈ ".svg".data := hss.subset (List.mem_cons_self _ _)
      simp at this

theorem pathBasenameStrip_svg {s : String} (h1 : '/' ∉ s.data) (h2 : s.data ≠ []) :
    pathBasenameStrip (s ++ ".svg") ".svg" = s := by
  have hns : '/' ∉ (s ++ ".svg").data := by
    rw [String.data_append]
    intro hm
    rcases List.mem_append.mp hm with hm | hm
    · exact h1 hm
    · simp at hm
  have hb : afterLastSlash (s ++ ".svg").data = s.data ++ ".svg".data := by
    rw [afterLastSlash_no_slash hns, String.data_append]
  have hne : ¬ (s.data ++ ".svg".data = ".svg".data) := by
    intro he
    have := congrArg List.length he
    simp at this
    exact h2 (List.eq_nil_of_length_eq_zero this)
  have hsuf : ".svg".data <:+ s.data ++ ".svg".data := List.suffix_append _ _
  simp only [pathBasenameStrip, hb]
  rw [if_neg hne, if_pos hsuf]
  apply str_data_inj
  show List.take _ _ = s.data
  have hlen : (s.data ++ ".svg".data).length - (".svg".data).length = s.data.length := by
    simp
  rw [hlen, List.take_left]

theorem pathBasenameStrip_upper {s : String} (h1 : '/' ∉ s.data) (h2 : s.data ≠ []) :
    pathBasenameStrip (s ++ ".SVG") ".svg" = s ++ ".SVG" := by
  have hns : '/' ∉ (s ++ ".SVG").data := by
    rw [String.data_append]
    intro hm
    rcases List.mem_append.mp hm with hm | hm
    · exact h1 hm
    · simp at hm
  have hb : afterLastSlash (s ++ ".SVG").data = s.data ++ ".SVG".data := by
    rw [afterLastSlash_no_slash hns, String.data_append]
  have hne : ¬ (s.data ++ ".SVG".data = ".svg".data) := by
    intro he
    have := congrArg List.length he
    simp at this
    exact h2 (List.eq_nil_of_length_eq_zero this)
  have hnsuf : ¬ (".svg".data <:+ s.data ++ ".SVG".data) := by
    intro hsuf
    have hs2 : ".SVG".data <:+ s.data ++ ".SVG".data := List.suffix_append _ _
    have hss := List.suffix_of_suffix_length_le hsuf hs2 (by decide)
    have := List.IsSuffix.eq_of_length hss (by decide)
    simp at this
  simp only [pathBasenameStrip, hb]
  rw [if_neg hne, if_neg hnsuf]
  apply str_data_inj
  show (s.data ++ ".SVG".data) = (s ++ ".SVG").data
  rw [String.data_append]

theorem joinPath_right_inj {d a b : String} (h : joinPath d a = joinPath d b) :
    a = b := by
  unfold joinPath at h
  have hd := congrArg String.data h
  simp only [String.data_append] at hd
  exact str_data_inj (List.append_cancel_left hd)

theorem pathBasenameStrip_pathBasename (p ext : String) :
    pathBasenameStrip (pathBasename p) ext = pathBasenameStrip p ext := by
  simp only [pathBasenameStrip, pathBasename]
  rw [show afterLastSlash (String.data ⟨afterLastSlash p.data⟩) = afterLastSlash p.data from
    afterLastSlash_no_slash (no_slash_afterLastSlash p.data)]

theorem write_path_ne_manifest {cwd nm : String} (h : svgExt nm = true) :
    joinPath (optimizedDir cwd) (pathBasename nm) ≠ manifestPath cwd := by
  intro he
  unfold manifestPath at he
  have hb := joinPath_right_inj he
  have h2 := svgExt_pathBasename h
  rw [hb] at h2
  exact absurd h2 (by decide)

/-! ### Helper lemmas about the processing loop and discovery -/

theorem processAll_cons_ok {cwd : String} {engine : SvgoEngine}
    {f : String × String} {rest : List (String × String)} {evs : List RunEvent}
    (hf : processFile cwd engine f = .ok evs) :
    processAll cwd engine (f :: rest)
      = (evs ++ (processAll cwd engine rest).1, (processAll cwd engine rest).2) := by
  simp [processAll, hf]

theorem processAll_cons_err {cwd : String} {engine : SvgoEngine}
    {f : String × String} {rest : List (String × String)} {e : String}
    (hf : processFile cwd engine f = .error e) :
    processAll cwd engine (f :: rest) = ([], some e) := by
  simp [processAll, hf]

theorem processAll_none_flatten {cwd : String} {engine : SvgoEngine}
    {l : List (String × String)} (h : (processAll cwd engine l).2 = none) :
    (processAll cwd engine l).1 = (l.map (perFileEvents cwd engine)).flatten := by
  induction l with
  | nil => rfl
  | cons f rest ih =>
      cases hf : processFile cwd engine f with
      | error e =>
          rw [processAll_cons_err hf] at h
          simp at h
      | ok evs =>
          rw [processAll_cons_ok hf] at h ⊢
          simp only [List.map_cons, List.flatten_cons]
          rw [ih h]
          simp [perFileEvents, hf]

theorem processAll_none_ok {cwd : String} {engine : SvgoEngine}
    {l : List (String × String)} (h : (processAll cwd engine l).2 = none) :
    ∀ f ∈ l, ∃ v, optimizeSvg engine f.2 (pathBasename f.1) = .ok v := by
  induction l with
  | nil => intro f hf; simp at hf
  | cons g rest ih =>
      intro f hf
      cases hg : processFile cwd engine g with
      | error e =>
          rw [processAll_cons_err hg] at h
          simp at h
      | ok evs =>
          rw [processAll_cons_ok hg] at h
          rcases List.mem_cons.mp hf with rfl | hfr
          · cases ho : optimizeSvg engine f.2 (pathBasename f.1) with
            | error e => simp [processFile, ho] at hg
            | ok v => exact ⟨v, rfl⟩
          · exact ih h f hfr

theorem processAll_err_of_mem (cwd : String) {engine : SvgoEngine}
    {l : List (String × String)}
    (h : ∃ f ∈ l, isErrorResult (optimizeSvg engine f.2 (pathBasename f.1)) = true) :
    ∃ e, (processAll cwd engine l).2 = some e := by
  induction l with
  | nil => simp at h
  | cons g rest ih =>
      obtain ⟨f, hf, hferr⟩ := h
      rcases List.mem_cons.mp hf with rfl | hfr
      · cases ho : optimizeSvg engine f.2 (pathBasename f.1) with
        | ok v => rw [ho] at hferr; simp [isErrorResult] at hferr
        | error e =>
            refine ⟨e, ?_⟩
            rw [processAll_cons_err (show processFile cwd engine f = .error e by
              simp [processFile, ho])]
      · cases hg : processFile cwd engine g with
        | error e => exact ⟨e, by rw [processAll_cons_err hg]⟩
        | ok evs =>
            obtain ⟨e, he⟩ := ih ⟨f, hfr, hferr⟩
            exact ⟨e, by rw [processAll_cons_ok hg]; exact he⟩

theorem mem_processAll_write {cwd p c : String} {engine : SvgoEngine}
    {l : List (String × String)}
    (h : RunEvent.fileWrite p c ∈ (processAll cwd engine l).1) :
    ∃ f ∈ l, p = joinPath (optimizedDir cwd) (pathBasename f.1) := by
  induction l with
  | nil => simp [processAll] at h
  | cons g rest ih =>
      cases hg : processFile cwd engine g with
      | error e =>
          rw [processAll_cons_err hg] at h
          simp at h
      | ok evs =>
          rw [processAll_cons_ok hg] at h
          rcases List.mem_append.mp h with hin | hin
          · cases ho : optimizeSvg engine g.2 (pathBasename g.1) with
            | error e => simp [processFile, ho] at hg
            | ok v =>
                simp only [processFile, ho] at hg
                have hevs : evs
                    = [ RunEvent.fileWrite
                          (joinPath (optimizedDir cwd) (pathBasename g.1)) v
                      , RunEvent.logOptimized (pathBasename g.1) ] := by
                  exact (Except.ok.injEq _ _).mp hg.symm
                rw [hevs] at hin
                rcases List.mem_cons.mp hin with heq | hin2
                · refine ⟨g, List.mem_cons_self _ _, ?_⟩
                  exact (RunEvent.fileWrite.injEq _ _ _ _).mp heq |>.1
                · rcases List.mem_cons.mp hin2 with heq | hin3
                  · exact absurd heq (by intro hx; cases hx)
                  · simp at hin3
          · obtain ⟨f, hfr, hp⟩ := ih hin
            exact ⟨f, List.mem_cons_of_mem _ hfr, hp⟩

theorem getSvgFiles_nil (dirPath : String) : getSvgFiles dirPath [] = [] := by
  simp [getSvgFiles, walkEntries]

theorem getSvgFiles_cons_file (dirPath name c : String) (rest : List FsEntry) :
    getSvgFiles dirPath (.file name c :: rest)
      = (if svgExt (resolvePath dirPath name)
          then [(resolvePath dirPath name, c)] else [])
        ++ getSvgFiles dirPath rest := by
  conv_lhs => rw [getSvgFiles, walkEntries]
  rw [walkEntry, List.flatten_cons, List.filter_append]
  rw [getSvgFiles]
  congr 1
  rw [List.filter_cons]
  by_cases hp : svgExt (resolvePath dirPath name) = true
  · simp [hp]
  · simp [hp]

theorem getSvgFiles_cons_dir (dirPath name : String) (sub rest : List FsEntry) :
    getSvgFiles dirPath (.dir name sub :: rest)
      = getSvgFiles (resolvePath dirPath name) sub ++ getSvgFiles dirPath rest := by
  conv_lhs => rw [getSvgFiles, walkEntries]
  rw [walkEntry, List.flatten_cons, List.filter_append]
  rw [getSvgFiles, getSvgFiles]
  congr 1
  rw [List.filter_eq_self]
  intro a ha
  exact (List.mem_filter.mp ha).2

theorem getSvgFiles_eq_filter (dirPath : String) (entries : List FsEntry) :
    getSvgFiles dirPath entries
      = (specAllFiles dirPath entries).filter (fun f => svgExt f.1) := by
  match entries with
  | [] => rw [getSvgFiles_nil]; simp [specAllFiles]
  | .file name c :: rest =>
      rw [getSvgFiles_cons_file, getSvgFiles_eq_filter dirPath rest]
      simp only [specAllFiles, List.filter_cons]
      by_cases hp : svgExt (resolvePath dirPath name) = true
      · simp [hp]
      · simp [hp]
  | .dir name sub :: rest =>
      rw [getSvgFiles_cons_dir, getSvgFiles_eq_filter (resolvePath dirPath name) sub,
        getSvgFiles_eq_filter dirPath rest]
      simp [specAllFiles, List.filter_append]
termination_by sizeOf entries

theorem mem_getSvgFiles_svg {dirPath : String} {entries : List FsEntry}
    {f : String × String} (h : f ∈ getSvgFiles dirPath entries) :
    svgExt f.1 = true := by
  rw [getSvgFiles_eq_filter] at h
  exact (List.mem_filter.mp h).2

/-! ### Helper lemmas about whole runs -/

theorem runPipeline_rawMissing {inp : RunInput} (h : inp.rawTree = none) :
    runPipeline inp
      = ⟨ensureDir (optimizedDir inp.cwd) inp.destProbe ++ [RunEvent.logError], 1⟩ := by
  simp [runPipeline, h]

theorem runPipeline_engineErr {inp : RunInput} {entries : List FsEntry} {e : String}
    (h : inp.rawTree = some entries)
    (he : (processAll inp.cwd inp.engine (getSvgFiles (rawDir inp.cwd) entries)).2
      = some e) :
    runPipeline inp
      = ⟨ensureDir (optimizedDir inp.cwd) inp.destProbe
          ++ [RunEvent.logFound (getSvgFiles (rawDir inp.cwd) entries).length]
          ++ (processAll inp.cwd inp.engine (getSvgFiles (rawDir inp.cwd) entries)).1
          ++ [RunEvent.logError], 1⟩ := by
  simp [runPipeline, h, he]

theorem runPipeline_success {inp : RunInput} {entries : List FsEntry}
    (h : inp.rawTree = some entries)
    (hn : (processAll inp.cwd inp.engine (getSvgFiles (rawDir inp.cwd) entries)).2
      = none) :
    runPipeline inp
      = ⟨ensureDir (optimizedDir inp.cwd) inp.destProbe
          ++ [RunEvent.logFound (getSvgFiles (rawDir inp.cwd) entries).length]
          ++ (processAll inp.cwd inp.engine (getSvgFiles (rawDir inp.cwd) entries)).1
          ++ [ RunEvent.logComplete (getSvgFiles (rawDir inp.cwd) entries).length
             , RunEvent.fileWrite (manifestPath inp.cwd)
                 (manifestJson (iconStems (getSvgFiles (rawDir inp.cwd) entries)))
             , RunEvent.logManifestCreated (manifestPath inp.cwd) ], 0⟩ := by
  simp [runPipeline, h, hn]

theorem writeEvents_append (a b : List RunEvent) :
    writeEvents (a ++ b) = writeEvents a ++ writeEvents b := by
  unfold writeEvents
  exact List.filter_append a b

theorem manifestWrites_append (cwd : String) (a b : List RunEvent) :
    manifestWrites cwd (a ++ b) = manifestWrites cwd a ++ manifestWrites cwd b := by
  unfold manifestWrites
  exact List.filter_append a b

theorem destMutations_append (a b : List RunEvent) :
    destMutations (a ++ b) = destMutations a ++ destMutations b := by
  unfold destMutations
  exact List.filter_append a b

theorem writeEvents_ensureDir (dir : String) (probe : Except String Unit) :
    writeEvents (ensureDir dir probe) = [] := by
  cases probe <;> simp [ensureDir, writeEvents, isFileWrite]

theorem manifestWrites_ensureDir (cwd dir : String) (probe : Except String Unit) :
    manifestWrites cwd (ensureDir dir probe) = [] := by
  cases probe <;> simp [ensureDir, manifestWrites]

theorem manifestWrites_processAll {cwd : String} {engine : SvgoEngine}
    {l : List (String × String)} (hsvg : ∀ f ∈ l, svgExt f.1 = true) :
    manifestWrites cwd (processAll cwd engine l).1 = [] := by
  unfold manifestWrites
  rw [List.filter_eq_nil_iff]
  intro ev hev
  cases ev with
  | fileWrite p c =>
      obtain ⟨f, hf, rfl⟩ := mem_processAll_write hev
      simpa using write_path_ne_manifest (hsvg f hf)
  | mkdirRecursive d => simp
  | logFound n => simp
  | logOptimized nm => simp
  | logComplete n => simp
  | logManifestCreated pth => simp
  | logError => simp

theorem manifestWrites_success {inp : RunInput} {entries : List FsEntry}
    (h1 : inp.rawTree = some entries)
    (h2 : (processAll inp.cwd inp.engine (getSvgFiles (rawDir inp.cwd) entries)).2
      = none) :
    manifestWrites inp.cwd (runPipeline inp).trace
      = [RunEvent.fileWrite (manifestPath inp.cwd)
          (manifestJson (iconStems (getSvgFiles (rawDir inp.cwd) entries)))] := by
  rw [runPipeline_success h1 h2]
  show manifestWrites inp.cwd (_ ++ _ ++ _ ++ _) = _
  rw [manifestWrites_append, manifestWrites_append, manifestWrites_append,
    manifestWrites_ensureDir,
    manifestWrites_processAll (fun f hf => mem_getSvgFiles_svg hf)]
  simp [manifestWrites]

theorem iconWriteNames_append (cwd : String) (a b : List RunEvent) :
    iconWriteNames cwd (a ++ b) = iconWriteNames cwd a ++ iconWriteNames cwd b := by
  unfold iconWriteNames
  exact List.filterMap_append a b _

theorem iconWriteNames_ensureDir (cwd dir : String) (probe : Except String Unit) :
    iconWriteNames cwd (ensureDir dir probe) = [] := by
  cases probe <;> simp [ensureDir, iconWriteNames]

theorem pathBasename_joinPath {name : String} (h : '/' ∉ name.data) (dir : String) :
    pathBasename (joinPath dir name) = name :=
  pathBasename_resolve h dir

theorem iconWriteNames_processAll {cwd : String} {engine : SvgoEngine}
    {l : List (String × String)}
    (hsvg : ∀ f ∈ l, svgExt f.1 = true)
    (h2 : (processAll cwd engine l).2 = none) :
    iconWriteNames cwd (processAll cwd engine l).1
      = l.map (fun f => pathBasename f.1) := by
  induction l with
  | nil => rfl
  | cons f rest ih =>
      cases hf : processFile cwd engine f with
      | error e =>
          rw [processAll_cons_err hf] at h2
          simp at h2
      | ok evs =>
          rw [processAll_cons_ok hf] at h2 ⊢
          rw [iconWriteNames_append,
            ih (fun g hg => hsvg g (List.mem_cons_of_mem _ hg)) h2]
          cases ho : optimizeSvg engine f.2 (pathBasename f.1) with
          | error e => simp [processFile, ho] at hf
          | ok v =>
              simp only [processFile, ho] at hf
              have hevs : evs
                  = [ RunEvent.fileWrite
                        (joinPath (optimizedDir cwd) (pathBasename f.1)) v
                    , RunEvent.logOptimized (pathBasename f.1) ] :=
                (Except.ok.injEq _ _).mp hf.symm
              have hne : joinPath (optimizedDir cwd) (pathBasename f.1)
                  ≠ manifestPath cwd :=
                write_path_ne_manifest (hsvg f (List.mem_cons_self _ _))
              have hns : '/' ∉ (pathBasename f.1).data :=
                no_slash_afterLastSlash _
              have hone : iconWriteNames cwd evs = [pathBasename f.1] := by
                rw [hevs]
                simp only [iconWriteNames, List.filterMap_cons, List.filterMap_nil]
                rw [if_neg hne, pathBasename_joinPath hns]
              rw [hone]
              simp

/-! ### Claim theorems -/

/-- C1: for every filename, the transform configuration is a pure function of
the filename and consists of exactly the ordered five-step list
(preset-default with empty overrides, prefixIds, removeXMLNS, sortAttrs,
addAttributesToSVGElement with aria-hidden/width/height/fill), with
`multipass` set to `true` (and the filename echoed as `path`). -/
theorem claim_C1_transform_config (filename : String) :
    (optimizeSvgConfig filename).multipass = true
    ∧ (optimizeSvgConfig filename).plugins.map pluginName
        = [ "preset-default", "prefixIds", "removeXMLNS", "sortAttrs"
          , "addAttributesToSVGElement" ]
    ∧ (optimizeSvgConfig filename).plugins.length = 5
    ∧ (optimizeSvgConfig filename).plugins[0]? = some (.presetDefault [])
    ∧ (optimizeSvgConfig filename).plugins[4]?
        = some (.addAttributesToSVGElement
            [ ⟨"aria-hidden", "true"⟩, ⟨"width", "24"⟩
            , ⟨"height", "24"⟩, ⟨"fill", "currentColor"⟩ ])
    ∧ (optimizeSvgConfig filename).path = filename := by
  exact ⟨rfl, rfl, rfl, rfl, rfl, rfl⟩

/-- C2 as stated is false: the file `x.SVG` passes the case-insensitive
discovery filter, but `path.basename(filename, '.svg')` strips the extension
case-sensitively, so its `prefixIds` prefix is `x.SVG-`, not the stem-based
`x-` the claim requires. -/
theorem claim_C2_counterexample :
    svgExt "x.SVG" = true
    ∧ (optimizeSvgConfig "x.SVG").plugins[1]?
        = some (SvgoPlugin.prefixIds "x.SVG-")
    ∧ specStem "x.SVG" ++ "-" = "x-"
    ∧ ("x.SVG-" : String) ≠ "x-" := by
  exact ⟨by decide, by decide, by decide, by decide⟩

/-- C2 amended: the prefix is the filename with a case-sensitively matching
`.svg` suffix removed, followed by `-`; in particular for `X.svg` it is
exactly `X-`, while a file `X.SVG` keeps its full name and gets `X.SVG-`. -/
theorem claim_C2_amended (s : String) (h1 : '/' ∉ s.data) (h2 : s.data ≠ []) :
    (optimizeSvgConfig (s ++ ".svg")).plugins[1]?
      = some (SvgoPlugin.prefixIds (s ++ "-"))
    ∧ (optimizeSvgConfig (s ++ ".SVG")).plugins[1]?
      = some (SvgoPlugin.prefixIds ((s ++ ".SVG") ++ "-")) := by
  constructor
  · show some (SvgoPlugin.prefixIds (pathBasenameStrip (s ++ ".svg") ".svg" ++ "-")) = _
    rw [pathBasenameStrip_svg h1 h2]
  · show some (SvgoPlugin.prefixIds (pathBasenameStrip (s ++ ".SVG") ".svg" ++ "-")) = _
    rw [pathBasenameStrip_upper h1 h2]

theorem claim_C2_amended_witness :
    ('/' ∉ "lock".data) ∧ ("lock".data ≠ [])
    ∧ ((optimizeSvgConfig ("lock" ++ ".svg")).plugins[1]?
          = some (SvgoPlugin.prefixIds ("lock" ++ "-"))
        ∧ (optimizeSvgConfig ("lock" ++ ".SVG")).plugins[1]?
          = some (SvgoPlugin.prefixIds (("lock" ++ ".SVG") ++ "-"))) :=
  ⟨by decide, by decide, claim_C2_amended "lock" (by decide) (by decide)⟩

/-- C7: discovery equals the depth-first enumeration of all files filtered by
the case-insensitive `.svg` test, so membership holds iff a walked file's
extension matches, traversal order is preserved, and the whole list is
materialized before processing; the filter accepts `.svg`, `.SVG` and `.Svg`
spellings of the extension. -/
theorem claim_C7_discovery (dirPath : String) (entries : List FsEntry) (s : String) :
    getSvgFiles dirPath entries
      = (specAllFiles dirPath entries).filter (fun f => svgExt f.1)
    ∧ (∀ f : String × String,
        f ∈ getSvgFiles dirPath entries
          ↔ f ∈ specAllFiles dirPath entries ∧ svgExt f.1 = true)
    ∧ svgExt (s ++ ".svg") = true
    ∧ svgExt (s ++ ".SVG") = true
    ∧ svgExt (s ++ ".Svg") = true := by
  refine ⟨getSvgFiles_eq_filter dirPath entries, ?_, ?_, ?_, ?_⟩
  · intro f
    rw [getSvgFiles_eq_filter]
    simp [List.mem_filter]
  · rw [svgExt_iff, String.data_append, lowerChars_append,
      show lowerChars ".svg".data = ".svg".data from by decide]
    exact List.suffix_append _ _
  · rw [svgExt_iff, String.data_append, lowerChars_append,
      show lowerChars ".SVG".data = ".svg".data from by decide]
    exact List.suffix_append _ _
  · rw [svgExt_iff, String.data_append, lowerChars_append,
      show lowerChars ".Svg".data = ".svg".data from by decide]
    exact List.suffix_append _ _

/-- C3: if the optimization engine throws on any discovered file, the run
exits with code 1 and nothing is ever written to the manifest path: the first
error aborts the run before the manifest stage, with no retry, skip, or
partial-success mode. -/
theorem claim_C3_engine_failure (inp : RunInput) (entries : List FsEntry)
    (h1 : inp.rawTree = some entries)
    (h2 : (getSvgFiles (rawDir inp.cwd) entries).any (engineFailsOn inp.engine)
      = true) :
    (runPipeline inp).exitCode = 1
    ∧ manifestWrites inp.cwd (runPipeline inp).trace = [] := by
  have hex : ∃ f ∈ getSvgFiles (rawDir inp.cwd) entries,
      isErrorResult (optimizeSvg inp.engine f.2 (pathBasename f.1)) = true := by
    simpa [engineFailsOn] using List.any_eq_true.mp h2
  obtain ⟨e, he⟩ := processAll_err_of_mem inp.cwd hex
  rw [runPipeline_engineErr h1 he]
  refine ⟨rfl, ?_⟩
  show manifestWrites inp.cwd (_ ++ _ ++ _ ++ _) = _
  rw [manifestWrites_append, manifestWrites_append, manifestWrites_append,
    manifestWrites_ensureDir,
    manifestWrites_processAll (fun f hf => mem_getSvgFiles_svg hf)]
  simp [manifestWrites]

theorem claim_C3_witness :
    (c3Input.rawTree = some [FsEntry.file "a.svg" "body"])
    ∧ ((getSvgFiles (rawDir c3Input.cwd) [FsEntry.file "a.svg" "body"]).any
        (engineFailsOn c3Input.engine) = true)
    ∧ ((runPipeline c3Input).exitCode = 1
        ∧ manifestWrites c3Input.cwd (runPipeline c3Input).trace = []) := by
  have hany : (getSvgFiles (rawDir c3Input.cwd) [FsEntry.file "a.svg" "body"]).any
      (engineFailsOn c3Input.engine) = true := by
    rw [getSvgFiles_cons_file, getSvgFiles_nil]
    decide
  exact ⟨rfl, hany,
    claim_C3_engine_failure c3Input [FsEntry.file "a.svg" "body"] rfl hany⟩

/-- C8: when the source root is missing, the run exits 1 and writes no files
into the destination tree. -/
theorem claim_C8_missing_root (inp : RunInput) (h : inp.rawTree = none) :
    (runPipeline inp).exitCode = 1
    ∧ writeEvents (runPipeline inp).trace = [] := by
  rw [runPipeline_rawMissing h]
  refine ⟨rfl, ?_⟩
  show writeEvents (_ ++ _) = _
  rw [writeEvents_append, writeEvents_ensureDir]
  simp [writeEvents, isFileWrite]

theorem claim_C8_witness :
    (c8Input.rawTree = none)
    ∧ ((runPipeline c8Input).exitCode = 1
        ∧ writeEvents (runPipeline c8Input).trace = []) :=
  ⟨rfl, claim_C8_missing_root c8Input rfl⟩

/-- C9: with a deterministic engine (a pure function in the model), re-running
on an unchanged source tree yields byte-identical file writes (including the
manifest) and the same exit code, independently of whether the destination
directory already exists — the only destination state a previous run could
have changed that the pipeline observes. -/
theorem claim_C9_idempotent (cwd : String) (p1 p2 : Except String Unit)
    (t : Option (List FsEntry)) (engine : SvgoEngine) :
    writeEvents (runPipeline ⟨cwd, p1, t, engine⟩).trace
      = writeEvents (runPipeline ⟨cwd, p2, t, engine⟩).trace
    ∧ (runPipeline ⟨cwd, p1, t, engine⟩).exitCode
      = (runPipeline ⟨cwd, p2, t, engine⟩).exitCode := by
  cases t with
  | none =>
      rw [runPipeline_rawMissing (show RunInput.rawTree ⟨cwd, p1, none, engine⟩ = none from rfl),
        runPipeline_rawMissing (show RunInput.rawTree ⟨cwd, p2, none, engine⟩ = none from rfl)]
      refine ⟨?_, rfl⟩
      simp only [writeEvents_append, writeEvents_ensureDir]
  | some entries =>
      cases hq : (processAll cwd engine (getSvgFiles (rawDir cwd) entries)).2 with
      | none =>
          rw [runPipeline_success (show RunInput.rawTree ⟨cwd, p1, some entries, engine⟩ = some entries from rfl) hq,
            runPipeline_success (show RunInput.rawTree ⟨cwd, p2, some entries, engine⟩ = some entries from rfl) hq]
          refine ⟨?_, rfl⟩
          simp only [writeEvents_append, writeEvents_ensureDir]
      | some e =>
          rw [runPipeline_engineErr (show RunInput.rawTree ⟨cwd, p1, some entries, engine⟩ = some entries from rfl) hq,
            runPipeline_engineErr (show RunInput.rawTree ⟨cwd, p2, some entries, engine⟩ = some entries from rfl) hq]
          refine ⟨?_, rfl⟩
          simp only [writeEvents_append, writeEvents_ensureDir]

/-- C10: any failure of the destination-existence probe (not only
non-existence, e.g. a permission error) leads to an attempted recursive mkdir
as the very first event of the run, before discovery; and on a run that fails
during discovery (missing source root) the only destination mutation is that
possible directory creation. -/
theorem claim_C10_ensure_dir (inp : RunInput) (err : String)
    (h : inp.destProbe = .error err) :
    (runPipeline inp).trace.head?
      = some (RunEvent.mkdirRecursive (optimizedDir inp.cwd))
    ∧ (inp.rawTree = none →
        destMutations (runPipeline inp).trace
          = [RunEvent.mkdirRecursive (optimizedDir inp.cwd)]) := by
  constructor
  · cases ht : inp.rawTree with
    | none =>
        rw [runPipeline_rawMissing ht]
        simp [ensureDir, h]
    | some entries =>
        cases hq : (processAll inp.cwd inp.engine
            (getSvgFiles (rawDir inp.cwd) entries)).2 with
        | none =>
            rw [runPipeline_success ht hq]
            simp [ensureDir, h]
        | some e =>
            rw [runPipeline_engineErr ht hq]
            simp [ensureDir, h]
  · intro ht
    rw [runPipeline_rawMissing ht]
    show destMutations (_ ++ _) = _
    rw [destMutations_append]
    simp [destMutations, ensureDir, h]

theorem claim_C10_witness :
    (c10Input.destProbe = Except.error "EACCES")
    ∧ (c10Input.rawTree = none)
    ∧ (runPipeline c10Input).trace.head?
        = some (RunEvent.mkdirRecursive (optimizedDir c10Input.cwd))
    ∧ destMutations (runPipeline c10Input).trace
        = [RunEvent.mkdirRecursive (optimizedDir c10Input.cwd)] :=
  ⟨rfl, rfl, (claim_C10_ensure_dir c10Input "EACCES" rfl).1,
    (claim_C10_ensure_dir c10Input "EACCES" rfl).2 rfl⟩

theorem iconWriteNames_logFound (cwd : String) (n : Nat) :
    iconWriteNames cwd [RunEvent.logFound n] = [] := rfl

theorem iconWriteNames_finale (cwd : String) (n : Nat) (c p : String) :
    iconWriteNames cwd
      [ RunEvent.logComplete n
      , RunEvent.fileWrite (manifestPath cwd) c
      , RunEvent.logManifestCreated p ] = [] := by
  simp [iconWriteNames]

/-- C4 as stated is false: in the successful concrete run below the single
discovered file is `y.SVG`, yet the manifest written is
`{"icons": ["y.SVG"]}` — the entry keeps its uppercase extension instead of
being the extension-stripped stem `y`. -/
theorem claim_C4_counterexample :
    manifestWrites c4Input.cwd (runPipeline c4Input).trace
      = [RunEvent.fileWrite (manifestPath c4Input.cwd)
          "\x7b\n  \"icons\": [\n    \"y.SVG\"\n  ]\n\x7d"]
    ∧ specStem "y.SVG" = "y"
    ∧ ("\x7b\n  \"icons\": [\n    \"y.SVG\"\n  ]\n\x7d" : String)
        ≠ manifestJson [specStem "y.SVG"] := by
  have hg : getSvgFiles (rawDir c4Input.cwd) [FsEntry.file "y.SVG" "body"]
      = [(resolvePath (rawDir c4Input.cwd) "y.SVG", "body")] := by
    rw [getSvgFiles_cons_file, getSvgFiles_nil]
    decide
  have h2 : (processAll c4Input.cwd c4Input.engine
      (getSvgFiles (rawDir c4Input.cwd) [FsEntry.file "y.SVG" "body"])).2
      = none := by
    rw [hg]
    decide
  have hm := manifestWrites_success (show RunInput.rawTree c4Input = some [FsEntry.file "y.SVG" "body"] from rfl) h2
  rw [hm, hg]
  refine ⟨by decide, by decide, by decide⟩

/-- C4 amended: on a fully successful run exactly one write targets
destination-root/manifest.json, containing the 2-space-indented JSON object
whose `icons` list holds, per discovered file in discovery order, the base
name with a case-sensitively matching `.svg` suffix removed (equal to the
stem whenever the extension is lowercase `.svg`, but e.g. `y.SVG` stays
whole); for an empty source tree the manifest is `{"icons": []}` and no icon
file is written. -/
theorem claim_C4_amended (inp : RunInput) (entries : List FsEntry)
    (h1 : inp.rawTree = some entries)
    (h2 : (processAll inp.cwd inp.engine (getSvgFiles (rawDir inp.cwd) entries)).2
      = none) :
    manifestWrites inp.cwd (runPipeline inp).trace
      = [RunEvent.fileWrite (manifestPath inp.cwd)
          (manifestJson (iconStems (getSvgFiles (rawDir inp.cwd) entries)))]
    ∧ (getSvgFiles (rawDir inp.cwd) entries = [] →
        writeEvents (runPipeline inp).trace
          = [RunEvent.fileWrite (manifestPath inp.cwd)
              "\x7b\n  \"icons\": []\n\x7d"]) := by
  refine ⟨manifestWrites_success h1 h2, ?_⟩
  intro hempty
  rw [runPipeline_success h1 h2, hempty]
  show writeEvents (_ ++ _ ++ _ ++ _) = _
  rw [writeEvents_append, writeEvents_append, writeEvents_append,
    writeEvents_ensureDir]
  simp [writeEvents, isFileWrite, processAll, iconStems, manifestJson]

theorem claim_C4_amended_witness :
    (c4EmptyInput.rawTree = some [])
    ∧ ((processAll c4EmptyInput.cwd c4EmptyInput.engine
        (getSvgFiles (rawDir c4EmptyInput.cwd) [])).2 = none)
    ∧ manifestWrites c4EmptyInput.cwd (runPipeline c4EmptyInput).trace
        = [RunEvent.fileWrite (manifestPath c4EmptyInput.cwd)
            (manifestJson (iconStems (getSvgFiles (rawDir c4EmptyInput.cwd) [])))]
    ∧ writeEvents (runPipeline c4EmptyInput).trace
        = [RunEvent.fileWrite (manifestPath c4EmptyInput.cwd)
            "\x7b\n  \"icons\": []\n\x7d"] := by
  have hg : getSvgFiles (rawDir c4EmptyInput.cwd) [] = [] := getSvgFiles_nil _
  have h2 : (processAll c4EmptyInput.cwd c4EmptyInput.engine
      (getSvgFiles (rawDir c4EmptyInput.cwd) [])).2 = none := by
    rw [hg]
    rfl
  have hc := claim_C4_amended c4EmptyInput [] rfl h2
  exact ⟨rfl, h2, hc.1, hc.2 hg⟩

/-- C5: on any successful run the manifest's single write records exactly the
extension-stripping of the names the run actually wrote under the destination
directory, in write order — the pipeline never manifests a name it did not
also emit an optimized artifact for. -/
theorem claim_C5_manifest_invariant (inp : RunInput) (entries : List FsEntry)
    (h1 : inp.rawTree = some entries)
    (h2 : (processAll inp.cwd inp.engine (getSvgFiles (rawDir inp.cwd) entries)).2
      = none) :
    manifestWrites inp.cwd (runPipeline inp).trace
      = [RunEvent.fileWrite (manifestPath inp.cwd)
          (manifestJson
            (stripSvgAll (iconWriteNames inp.cwd (runPipeline inp).trace)))] := by
  have hstems : stripSvgAll (iconWriteNames inp.cwd (runPipeline inp).trace)
      = iconStems (getSvgFiles (rawDir inp.cwd) entries) := by
    rw [runPipeline_success h1 h2]
    show stripSvgAll (iconWriteNames inp.cwd (_ ++ _ ++ _ ++ _)) = _
    rw [iconWriteNames_append, iconWriteNames_append, iconWriteNames_append,
      iconWriteNames_ensureDir, iconWriteNames_logFound,
      iconWriteNames_processAll (fun f hf => mem_getSvgFiles_svg hf) h2,
      iconWriteNames_finale]
    simp only [List.nil_append, List.append_nil]
    simp only [stripSvgAll, iconStems, List.map_map]
    apply List.map_congr_left
    intro f hf
    exact pathBasenameStrip_pathBasename f.1 ".svg"
  rw [hstems]
  exact manifestWrites_success h1 h2

theorem claim_C5_witness :
    (c5Input.rawTree = some [FsEntry.file "ic.svg" "body"])
    ∧ ((processAll c5Input.cwd c5Input.engine
        (getSvgFiles (rawDir c5Input.cwd) [FsEntry.file "ic.svg" "body"])).2 = none)
    ∧ manifestWrites c5Input.cwd (runPipeline c5Input).trace
        = [RunEvent.fileWrite (manifestPath c5Input.cwd)
            (manifestJson
              (stripSvgAll
                (iconWriteNames c5Input.cwd (runPipeline c5Input).trace)))] := by
  have hg : getSvgFiles (rawDir c5Input.cwd) [FsEntry.file "ic.svg" "body"]
      = [(resolvePath (rawDir c5Input.cwd) "ic.svg", "body")] := by
    rw [getSvgFiles_cons_file, getSvgFiles_nil]
    decide
  have h2 : (processAll c5Input.cwd c5Input.engine
      (getSvgFiles (rawDir c5Input.cwd) [FsEntry.file "ic.svg" "body"])).2
      = none := by
    rw [hg]
    decide
  exact ⟨rfl, h2,
    claim_C5_manifest_invariant c5Input [FsEntry.file "ic.svg" "body"] rfl h2⟩

/-- C6 as stated is false: the summary line with the total processed count is
emitted before the manifest write, not after it.  In the concrete successful
run below the only `logComplete` event sits at index 3 while the manifest
write sits at index 4. -/
theorem claim_C6_counterexample :
    (runPipeline c6Input).trace.filter isLogComplete = [RunEvent.logComplete 1]
    ∧ (runPipeline c6Input).trace[3]? = some (RunEvent.logComplete 1)
    ∧ (runPipeline c6Input).trace[4]?
        = some (RunEvent.fileWrite (manifestPath c6Input.cwd)
            "\x7b\n  \"icons\": [\n    \"a\"\n  ]\n\x7d") := by
  have hg : getSvgFiles (rawDir c6Input.cwd) [FsEntry.file "a.svg" "hi"]
      = [(resolvePath (rawDir c6Input.cwd) "a.svg", "hi")] := by
    rw [getSvgFiles_cons_file, getSvgFiles_nil]
    decide
  have h2 : (processAll c6Input.cwd c6Input.engine
      (getSvgFiles (rawDir c6Input.cwd) [FsEntry.file "a.svg" "hi"])).2
      = none := by
    rw [hg]
    decide
  have ht := runPipeline_success (show RunInput.rawTree c6Input = some [FsEntry.file "a.svg" "hi"] from rfl) h2
  rw [ht, hg]
  refine ⟨by decide, by decide, by decide⟩

/-- C6 amended: a run follows ensure-destination → discover → report the
discovered count → per file in discovery order, write then confirm → report
the completion count → build and write the manifest → report its creation,
exiting 0; the summary count line precedes the manifest write, and the line
after the manifest write is the manifest-created message. -/
theorem claim_C6_amended (inp : RunInput) (entries : List FsEntry)
    (h1 : inp.rawTree = some entries)
    (h2 : (processAll inp.cwd inp.engine (getSvgFiles (rawDir inp.cwd) entries)).2
      = none) :
    (runPipeline inp).trace
      = ensureDir (optimizedDir inp.cwd) inp.destProbe
        ++ [RunEvent.logFound (getSvgFiles (rawDir inp.cwd) entries).length]
        ++ ((getSvgFiles (rawDir inp.cwd) entries).map
            (perFileEvents inp.cwd inp.engine)).flatten
        ++ [ RunEvent.logComplete (getSvgFiles (rawDir inp.cwd) entries).length
           , RunEvent.fileWrite (manifestPath inp.cwd)
               (manifestJson (iconStems (getSvgFiles (rawDir inp.cwd) entries)))
           , RunEvent.logManifestCreated (manifestPath inp.cwd) ]
    ∧ (runPipeline inp).exitCode = 0 := by
  rw [runPipeline_success h1 h2, processAll_none_flatten h2]
  exact ⟨rfl, rfl⟩

theorem claim_C6_amended_witness :
    (c6Input.rawTree = some [FsEntry.file "a.svg" "hi"])
    ∧ ((processAll c6Input.cwd c6Input.engine
        (getSvgFiles (rawDir c6Input.cwd) [FsEntry.file "a.svg" "hi"])).2 = none)
    ∧ ((runPipeline c6Input).trace
        = ensureDir (optimizedDir c6Input.cwd) c6Input.destProbe
          ++ [RunEvent.logFound
              (getSvgFiles (rawDir c6Input.cwd) [FsEntry.file "a.svg" "hi"]).length]
          ++ ((getSvgFiles (rawDir c6Input.cwd) [FsEntry.file "a.svg" "hi"]).map
              (perFileEvents c6Input.cwd c6Input.engine)).flatten
          ++ [ RunEvent.logComplete
                (getSvgFiles (rawDir c6Input.cwd) [FsEntry.file "a.svg" "hi"]).length
             , RunEvent.fileWrite (manifestPath c6Input.cwd)
                 (manifestJson (iconStems
                   (getSvgFiles (rawDir c6Input.cwd) [FsEntry.file "a.svg" "hi"])))
             , RunEvent.logManifestCreated (manifestPath c6Input.cwd) ]
        ∧ (runPipeline c6Input).exitCode = 0) := by
  have h2 : (processAll c6Input.cwd c6Input.engine
      (getSvgFiles (rawDir c6Input.cwd) [FsEntry.file "a.svg" "hi"])).2
      = none := by
    rw [getSvgFiles_cons_file, getSvgFiles_nil]
    decide
  exact ⟨rfl, h2, claim_C6_amended c6Input [FsEntry.file "a.svg" "hi"] rfl h2⟩
